import Mathlib

/- Verification development for the AIJobFinder incremental crawl-and-ingest
pipeline. The definitions below are a shallow embedding of the Python source
under src/: src/dice_search_scraper.py (reconciliation, tag update, insert,
page counting, link collection, orchestrator startup),
src/mongodb_functions.py (connect_to_mongodb) and src/file_utilities.py
(get_unique_filename). Machine-level effects (the browser, the network, the
MongoDB server) enter as explicit parameters: per-page outcomes, per-link
fetch outcomes, and the collection state as a list of documents. -/

namespace AIJobFinder

/-- Python substring test (needle in hay), over character lists. -/
def hasSubstr (needle : List Char) : List Char → Bool
  | [] => needle.isEmpty
  | c :: rest => needle.isPrefixOf (c :: rest) || hasSubstr needle rest

namespace DiceSearchScraper

/-- A document of the dice_jobs MongoDB collection, as built by
scrape_dice_job and stored by dice_search_scraper. Only the url (the unique
key) and the searches tag list matter to the claims; the remaining scraped
fields (title, company, location, ...) are carried as an inert payload. -/
structure Job where
  url : String
  searches : List String
  payload : List (String × String) := []
deriving DecidableEq, Repr

/-- update_job_search_tag (src/dice_search_scraper.py lines 28-39):
collection.update_one({url: url}, {addToSet: {searches: tag}}).
MongoDB update_one modifies at most the first matching document; addToSet
appends the tag only when it is not already in the array, and
modified_count is 1 exactly when the document changed. Returns the new
collection state together with modified_count. -/
def update_job_search_tag : List Job → String → String → List Job × Nat
  | [], _, _ => ([], 0)
  | j :: rest, url, tag =>
    if j.url = url then
      if tag ∈ j.searches then (j :: rest, 0)
      else ({ j with searches := j.searches ++ [tag] } :: rest, 1)
    else
      let r := update_job_search_tag rest url tag
      (j :: r.1, r.2)

/-- The Python value returned by insert_new_job: True on a plain insert,
or the modified_count integer of the fallback update after a
DuplicateKeyError. (The generic network-exception branch returning False
has no counterpart in this pure model of the collection.) -/
inductive InsertResult where
  | ok
  | dup (modifiedCount : Nat)
deriving DecidableEq, Repr

/-- Python truthiness of an insert_new_job return value: True is truthy,
an integer is truthy iff nonzero. -/
def InsertResult.truthy : InsertResult → Bool
  | .ok => true
  | .dup m => m != 0

/-- insert_new_job (src/dice_search_scraper.py lines 41-53): overwrites the
record's searches with the singleton [tag], then insert_one. The unique
index on url makes insert_one raise DuplicateKeyError exactly when a
document with this url already exists; in that case the code falls back to
update_job_search_tag and returns its modified_count. -/
def insert_new_job (coll : List Job) (jd : Job) (tag : String) : List Job × InsertResult :=
  let jd2 : Job := { jd with searches := [tag] }
  if coll.any (fun j => j.url = jd2.url) then
    let r := update_job_search_tag coll jd2.url tag
    (r.1, .dup r.2)
  else
    (coll ++ [jd2], .ok)

/-- The reconciliation loop of main_scraper_orchestrator
(src/dice_search_scraper.py lines 141-148): each collected link goes to
links_to_update when it is in existing_urls and to links_to_scrape
otherwise, in iteration order. Result: (links_to_scrape, links_to_update). -/
def reconcile : List String → List String → List String × List String
  | [], _ => ([], [])
  | link :: rest, existing =>
    let p := reconcile rest existing
    if link ∈ existing then (p.1, link :: p.2) else (link :: p.1, p.2)

/-- One iteration of the insert loop (src/dice_search_scraper.py lines
158-171): scrape the link; when a record is returned, insert it and
increment scraped_count only when insert_new_job's return value is truthy. -/
def process_link (fetch : String → Option Job) (tag : String)
    (st : List Job × Nat) (link : String) : List Job × Nat :=
  match fetch link with
  | none => st
  | some jd =>
    let r := insert_new_job st.1 jd tag
    (r.1, if r.2.truthy then st.2 + 1 else st.2)

/-- The insert loop over links_to_scrape, starting from scraped_count = 0. -/
def scrape_loop (coll : List Job) (tag : String) (links : List String)
    (fetch : String → Option Job) : List Job × Nat :=
  links.foldl (process_link fetch tag) (coll, 0)

/-- Match of the regular expression "Page 1 of (\d+)" anchored at the head
of cs: the literal "Page 1 of " followed by a greedy nonempty digit run,
whose decimal value is returned. -/
def pageCountAt (cs : List Char) : Option Nat :=
  if ("Page 1 of ".data).isPrefixOf cs then
    let ds := (cs.drop 10).takeWhile (fun c => c.isDigit)
    if ds.isEmpty then none
    else some (ds.foldl (fun acc c => acc * 10 + (c.toNat - 48)) 0)
  else none

/-- re.search over the text: the match at the leftmost position where the
whole pattern matches, scanning left to right. -/
def searchPageCount : List Char → Option Nat
  | [] => none
  | c :: rest =>
    match pageCountAt (c :: rest) with
    | some n => some n
    | none => searchPageCount rest

/-- get_total_pages (src/dice_search_scraper.py lines 57-79). The outcome
parameter is the environment: an exception anywhere in the try block (page
load error, timeout, pagination section missing) or the aria-label text
obtained from the pagination locator. The except branch returns the
default 1; otherwise int(match.group(1)) if the regex matched, else 1. -/
def get_total_pages (outcome : Except Unit String) : Nat :=
  match outcome with
  | .error _ => 1
  | .ok txt =>
    match searchPageCount txt.data with
    | some n => n
    | none => 1

/-- Python set.add on the running link set, modelled in insertion order:
append the element when new, keep the list unchanged otherwise. -/
def setAdd (s : List String) (x : String) : List String :=
  if x ∈ s then s else s ++ [x]

/-- The per-link body of get_unique_job_links (lines 99-102): href is the
link's attribute value (None when absent); the guard
(href and '/job-detail/' in href) adds href to the set when it is a
non-empty string containing the substring '/job-detail/'. -/
def addHref (acc : List String) (h : Option String) : List String :=
  match h with
  | none => acc
  | some s =>
    if s = "" then acc
    else if hasSubstr ("/job-detail/".data) s.data then setAdd acc s
    else acc

/-- Externally visible actions of the link collector, for pacing claims. -/
inductive Action where
  | fetchPage (i : Nat)
  | sleep (seconds : Nat)
deriving DecidableEq, Repr

/-- The page loop of get_unique_job_links (src/dice_search_scraper.py lines
90-109) over the page indices of range(1, total_pages + 1). A page outcome
of .ok links means that iteration's goto, wait_for_selector and link
extraction all succeeded and produced the given optional hrefs; .error
models an exception anywhere in the try block, which is caught and skips
the remainder of the body - including the asyncio.sleep(delay_seconds),
which sits inside the try after extraction. The trace records page loads
and sleeps in order. -/
def pageLoop (pages : Nat → Except Unit (List (Option String))) (delay : Nat) :
    List Nat → List String → List String × List Action
  | [], acc => (acc, [])
  | i :: rest, acc =>
    match pages i with
    | .ok links =>
      let acc2 := links.foldl addHref acc
      let r := pageLoop pages delay rest acc2
      (r.1, .fetchPage i :: .sleep delay :: r.2)
    | .error _ =>
      let r := pageLoop pages delay rest acc
      (r.1, .fetchPage i :: r.2)

/-- get_unique_job_links (src/dice_search_scraper.py lines 81-113): loops
over pages 1..total_pages accumulating the unique link set, returning the
collected links (Python returns list(all_job_links)) and the action trace. -/
def get_unique_job_links (pages : Nat → Except Unit (List (Option String)))
    (total_pages : Nat) (delay : Nat) : List String × List Action :=
  pageLoop pages delay (List.range' 1 total_pages) []

/-- Minimal model of the Python values flowing through the startup of
main_scraper_orchestrator. -/
inductive PyVal where
  | pynone
  | client
  | database
  | collection
  | tuple2 (a b : PyVal)
deriving DecidableEq, Repr

/-- connect_to_mongodb (src/mongodb_functions.py lines 11-38): returns the
2-tuple (client, db) when the server answers the ping, and the 2-tuple
(None, None) on any connection failure. -/
def connect_to_mongodb (reachable : Bool) : PyVal :=
  if reachable then .tuple2 .client .database else .tuple2 .pynone .pynone

/-- Python's (x is None) test. -/
def PyVal.isNone : PyVal → Bool
  | .pynone => true
  | _ => false

inductive PyError where
  | typeError
deriving DecidableEq, Repr

/-- Python subscription v[k] with a string key k: valid on a database value
(yielding a collection); on a tuple it raises TypeError (tuple indices must
be integers, not str), and no other value in this model supports it. -/
def getitemStr : PyVal → Except PyError PyVal
  | .database => .ok .collection
  | _ => .error .typeError

/-- Units of work of one orchestrator run, for the abort-before-work claim. -/
inductive Effect where
  | discoverPages
  | collectLinks
  | loadExistingUrls
  | tagUpdate (url : String)
  | fetchDetail (url : String)
deriving DecidableEq, Repr

/-- main_scraper_orchestrator (src/dice_search_scraper.py lines 117-174) at
the effect level: db = connect_to_mongodb(); the guard (if db is None:
return); job_collection = db[COLLECTION_NAME]; then - were that
subscription to succeed - the pipeline: get_total_pages, get_unique_job_links,
load_existing_urls_from_mongo, the tag-update loop over links_to_update and
the scrape loop over links_to_scrape. Since connect_to_mongodb returns a
2-tuple in both cases, the None guard never fires and the subscription of a
tuple by the string COLLECTION_NAME raises TypeError. Returns the effects
performed together with the uncaught exception, if any. -/
def main_scraper_orchestrator (reachable : Bool) (links existing : List String) :
    List Effect × Option PyError :=
  let db := connect_to_mongodb reachable
  if db.isNone then ([], none)
  else
    match getitemStr db with
    | .error e => ([], some e)
    | .ok _jobCollection =>
      let p := reconcile links existing
      (Effect.discoverPages :: Effect.collectLinks :: Effect.loadExistingUrls ::
        (p.2.map Effect.tagUpdate ++ p.1.map Effect.fetchDetail), none)

/-- Modelled from the spec: the flat-file-checkpointed variant of the
ingestion orchestrator (spec sections 4.4, 4.6 and the first open question
of section 9) is not among the files under src/; the file that is present,
dice_search_scraper.py, is the document-store variant with immediate
per-item writes and no checkpointInterval parameter. Faithful to the
spec's words: "after every checkpointInterval successful fetches (and
unconditionally at the end of the toFetch list), the orchestrator
transitions into FLUSHING, invokes CheckpointWriter, then returns to
FETCHING_NEW if items remain". The count argument is the current success
count; each boolean of the outcome list is one fetch attempt. -/
def flushCore (interval : Nat) : Nat → List Bool → List Nat
  | count, [] => [count]
  | count, ok :: rest =>
    if ok then
      if (count + 1) % interval = 0 then (count + 1) :: flushCore interval (count + 1) rest
      else flushCore interval (count + 1) rest
    else flushCore interval count rest

/-- Modelled from the spec (see flushCore): the success count at each
CheckpointWriter invocation during one toFetch pass, in order, starting
from success count 0. -/
def checkpointFlushCounts (interval : Nat) (outcomes : List Bool) : List Nat :=
  flushCore interval 0 outcomes

/-- Reference description of the link collector's pacing: the trace the
page loop emits, page by page - a load followed by a sleep when the whole
page body succeeded, a bare load when the page failed. -/
def expectedTrace (pages : Nat → Except Unit (List (Option String))) (delay : Nat) :
    List Nat → List Action
  | [] => []
  | i :: rest =>
    match pages i with
    | .ok _ => .fetchPage i :: .sleep delay :: expectedTrace pages delay rest
    | .error _ => .fetchPage i :: expectedTrace pages delay rest

/-- The pacing property the spec asserts, read on the action trace: no two
page loads are adjacent, i.e. every pair of consecutive loads has some
intervening action (the sleep). -/
def noAdjacentLoads : List Action → Bool
  | .fetchPage _ :: .fetchPage _ :: _ => false
  | _ :: rest => noAdjacentLoads rest
  | [] => true

/-- Concrete two-page environment in which page 1 raises during its load
and page 2 succeeds with one valid job link. -/
def failFirstPage : Nat → Except Unit (List (Option String)) :=
  fun i => if i = 1 then .error () else .ok [some "/job-detail/a"]

/-- Concrete five-page environment in which the same identifier is
extracted on pages 2 and 5 and every other page fails. -/
def twoHitPages : Nat → Except Unit (List (Option String)) :=
  fun i =>
    if i = 2 then .ok [some "/job-detail/x"]
    else if i = 5 then .ok [some "/job-detail/x", none]
    else .error ()

/-- The Record invariant of the spec's data model: every document's
searches list is deduplicated. -/
abbrev SearchesDedup (s : List Job) : Prop := ∀ j ∈ s, j.searches.Nodup

end DiceSearchScraper

namespace FileUtilities

/-- Index of the last occurrence of c in cs, if any. -/
def lastIdxOf (c : Char) (cs : List Char) : Option Nat :=
  match cs.reverse.findIdx? (fun x => x == c) with
  | some i => some (cs.length - 1 - i)
  | none => none

/-- os.path.splitext (posix flavor): split at the last dot, provided it
comes after the last path separator and at least one character strictly
between the separator and that dot is not itself a dot (so dotfiles such
as ".bashrc" keep an empty extension). -/
def splitext (p : String) : String × String :=
  let cs := p.data
  match lastIdxOf '.' cs with
  | none => (p, "")
  | some d =>
    let f : Nat := match lastIdxOf '/' cs with
      | none => 0
      | some s => s + 1
    if f ≤ d ∧ ((cs.drop f).take (d - f)).any (fun c => c != '.') then
      (String.mk (cs.take d), String.mk (cs.drop d))
    else (p, "")

/-- The f-string of file_utilities.get_unique_filename building
name_counter.ext; Python renders the counter in decimal, which is
Nat.repr. -/
def candidate (name ext : String) (n : Nat) : String :=
  name ++ "_" ++ Nat.repr n ++ ext

/-- The while loop of get_unique_filename (src/file_utilities.py lines
21-23), with explicit fuel. get_unique_filename calls it with fuel
exceeding the number of existing files, which the theorems show is enough
for the fuel-exhaustion branch to be unreachable (candidate names with
distinct counters are pairwise distinct). -/
def findFree (fs : List String) (name ext : String) : Nat → Nat → String
  | 0, counter => candidate name ext counter
  | fuel + 1, counter =>
    if candidate name ext counter ∈ fs then findFree fs name ext fuel (counter + 1)
    else candidate name ext counter

/-- get_unique_filename (src/file_utilities.py lines 3-25), with the file
system modelled as the list fs of names of existing files. -/
def get_unique_filename (fs : List String) (base : String) : String :=
  if base ∈ fs then
    findFree fs (splitext base).1 (splitext base).2 (fs.length + 1) 1
  else base

/-- Specification-side decimal rendering of a natural number, through
Mathlib's Nat.digits: the digit characters, most significant first, with 0
rendered as the single character zero. The theorems identify this with
Nat.repr. -/
def decChars (n : Nat) : List Char :=
  if n = 0 then ['0'] else ((Nat.digits 10 n).map Nat.digitChar).reverse

/-- Numeric value of a decimal digit character. -/
def digitVal (c : Char) : Nat := c.toNat - 48

end FileUtilities

/-! Theorems. -/

namespace DiceSearchScraper

theorem reconcile_eq_filters (links existing : List String) :
    reconcile links existing =
      (links.filter (fun l => decide (l ∉ existing)),
       links.filter (fun l => decide (l ∈ existing))) := by
  induction links with
  | nil => rfl
  | cons l rest ih => by_cases h : l ∈ existing <;> simp [reconcile, ih, h]

theorem length_filter_not_add (l : List String) (p : String → Bool) :
    (l.filter p).length + (l.filter (fun x => !(p x))).length = l.length := by
  induction l with
  | nil => rfl
  | cons a t ih => by_cases h : p a = true <;> simp [h, ih] <;> omega

/-- C1: the reconciliation step partitions the collected identifiers:
links_to_update is exactly collected ∩ known and links_to_scrape exactly
collected − known; the two are disjoint, their union is the collected set,
and when the collected list is duplicate-free (it is produced from a set)
no identifier is lost or duplicated: both parts are duplicate-free and
their lengths add up to the collected length. -/
theorem reconcile_partition (links existing : List String) (hnd : links.Nodup) :
    (∀ x, x ∈ (reconcile links existing).2 ↔ x ∈ links ∧ x ∈ existing) ∧
    (∀ x, x ∈ (reconcile links existing).1 ↔ x ∈ links ∧ x ∉ existing) ∧
    (∀ x, ¬(x ∈ (reconcile links existing).1 ∧ x ∈ (reconcile links existing).2)) ∧
    (∀ x, x ∈ links ↔ x ∈ (reconcile links existing).1 ∨ x ∈ (reconcile links existing).2) ∧
    (reconcile links existing).1.Nodup ∧ (reconcile links existing).2.Nodup ∧
    (reconcile links existing).1.length + (reconcile links existing).2.length
      = links.length := by
  rw [reconcile_eq_filters]
  have hfun : (fun x => !(decide (x ∉ existing))) = (fun x : String => decide (x ∈ existing)) := by
    funext x
    by_cases h : x ∈ existing <;> simp [h]
  refine ⟨?_, ?_, ?_, ?_, hnd.filter _, hnd.filter _, ?_⟩
  · intro x; simp [List.mem_filter]
  · intro x; simp [List.mem_filter]
  · intro x; simp [List.mem_filter]; tauto
  · intro x; simp [List.mem_filter]; tauto
  · rw [← hfun]
    exact length_filter_not_add links (fun l => decide (l ∉ existing))

theorem reconcile_partition_witness :
    (["a", "b", "c"] : List String).Nodup ∧
    (reconcile ["a", "b", "c"] ["b"]).1.length +
      (reconcile ["a", "b", "c"] ["b"]).2.length = 3 :=
  ⟨by decide, (reconcile_partition ["a", "b", "c"] ["b"] (by decide)).2.2.2.2.2.2⟩

/-- C3: with the Store backend unreachable at startup the orchestrator run
aborts before any work: the effect trace is empty (no page discovery, no
link collection, no tag update, no detail fetch) and the run terminates
with an uncaught error. In the source, connect_to_mongodb returns the
tuple (None, None) rather than None, so the `if db is None` guard does not
fire; the run still aborts before any work because subscripting that tuple
with the string COLLECTION_NAME raises TypeError. -/
theorem orchestrator_aborts_before_work (links existing : List String) :
    main_scraper_orchestrator false links existing = ([], some PyError.typeError) := rfl

/-- C4 (checkpointing modelled from the spec): with checkpointInterval = 3
and a toFetch list of 7 identifiers whose fetches all succeed, the
CheckpointWriter flush is invoked exactly at success counts 3, 6 and 7
(the unconditional final flush at end of list), and at no other counts. -/
theorem flush_at_3_6_7 :
    checkpointFlushCounts 3 (List.replicate 7 true) = [3, 6, 7] := by decide

/-- C2 counterexample: a record whose insert fails with DuplicateKeyError
(its url "u" is already stored) and whose fallback tag-append modifies
nothing (the record already carries the query tag "q") is not counted as
successfully processed: insert_new_job returns the falsy modified count 0
and the loop leaves scraped_count at 0. -/
theorem dup_insert_not_counted :
    (insert_new_job [⟨"u", ["q"], []⟩] ⟨"u", [], []⟩ "q").2 = .dup 0 ∧
    InsertResult.truthy (.dup 0) = false ∧
    scrape_loop [⟨"u", ["q"], []⟩] "q" ["u"]
      (fun l => some ⟨l, [], []⟩) = ([⟨"u", ["q"], []⟩], 0) := by decide

/-- C2 amended: when an insert hits DuplicateKeyError (the record's url is
already stored), the orchestrator retries it as a tag-append on the
existing record, and counts the item as successfully processed exactly
when that append modified the record (modified count nonzero); when the
existing record already carries the tag, the item is not counted. -/
theorem dup_insert_retries_as_append (coll : List Job) (jd : Job) (tag : String)
    (hdup : coll.any (fun j => j.url = jd.url) = true) :
    insert_new_job coll jd tag =
      ((update_job_search_tag coll jd.url tag).1,
        .dup (update_job_search_tag coll jd.url tag).2) ∧
    ∀ (fetch : String → Option Job) (link : String) (count : Nat),
      fetch link = some jd →
      process_link fetch tag (coll, count) link =
        ((update_job_search_tag coll jd.url tag).1,
          if (update_job_search_tag coll jd.url tag).2 ≠ 0 then count + 1 else count) := by
  have h1 : insert_new_job coll jd tag =
      ((update_job_search_tag coll jd.url tag).1,
        .dup (update_job_search_tag coll jd.url tag).2) := by
    simp [insert_new_job, hdup]
  refine ⟨h1, ?_⟩
  intro fetch link count hf
  unfold process_link
  rw [hf]
  simp only [h1]
  by_cases hm : (update_job_search_tag coll jd.url tag).2 = 0
  · simp [InsertResult.truthy, hm]
  · simp [InsertResult.truthy, hm]

theorem dup_insert_retries_as_append_witness :
    (([⟨"u", ["p"], []⟩] : List Job).any (fun j => j.url = ("u" : String)) = true) ∧
    insert_new_job [⟨"u", ["p"], []⟩] ⟨"u", [], []⟩ "q" = ([⟨"u", ["p", "q"], []⟩], .dup 1) := by
  have h := dup_insert_retries_as_append [⟨"u", ["p"], []⟩] ⟨"u", [], []⟩ "q" (by decide)
  exact ⟨by decide, by rw [h.1]; decide⟩

theorem pageLoop_trace (pages : Nat → Except Unit (List (Option String))) (delay : Nat)
    (idxs : List Nat) :
    ∀ acc, (pageLoop pages delay idxs acc).2 = expectedTrace pages delay idxs := by
  induction idxs with
  | nil => intro acc; rfl
  | cons i rest ih =>
    intro acc
    cases hp : pages i <;> simp [pageLoop, expectedTrace, hp, ih]

/-- C5 amended: the link collector waits the configured delay after each
page whose load and link extraction succeeded; when a page's load or
extraction raises, the delay (which sits inside the try block) is skipped
and the next page load begins immediately. The trace is exactly: a load
followed by a sleep for each successful page, a bare load for each failed
page. -/
theorem link_collector_delay_after_success (pages : Nat → Except Unit (List (Option String)))
    (total_pages delay : Nat) :
    (get_unique_job_links pages total_pages delay).2 =
      expectedTrace pages delay (List.range' 1 total_pages) :=
  pageLoop_trace pages delay (List.range' 1 total_pages) []

/-- C5 counterexample: in the two-page environment where page 1 fails to
load and page 2 succeeds, the emitted trace is load 1, load 2, sleep -
the two page loads are adjacent, with no inter-page delay between them,
refuting "waits the delay between consecutive page loads regardless of
success or failure". -/
theorem no_delay_after_failed_page :
    (get_unique_job_links failFirstPage 2 1).2 = [.fetchPage 1, .fetchPage 2, .sleep 1] ∧
    noAdjacentLoads (get_unique_job_links failFirstPage 2 1).2 = false := by decide

/-- C6 counterexample: when the pagination indicator's aria-label reads
"Page 1 of 0", the text is present and parseable, and get_total_pages
returns 0 - not a positive integer. -/
theorem total_pages_zero_on_zero_indicator :
    get_total_pages (.ok "Page 1 of 0") = 0 ∧ ¬ 0 < get_total_pages (.ok "Page 1 of 0") := by
  decide

/-- C6 amended: the page-count operation returns the default 1 whenever the
page load errors, times out, or the pagination indicator is missing (the
except branch) or its text does not match the pattern; when the text
matches, it returns the parsed count unchanged - a nonnegative integer
that fails to be positive exactly when the indicator reports a count of
zero. In every case the run proceeds with the returned value rather than
aborting. -/
theorem get_total_pages_spec :
    (∀ e, get_total_pages (.error e) = 1) ∧
    (∀ txt, searchPageCount txt.data = none → get_total_pages (.ok txt) = 1) ∧
    (∀ txt n, searchPageCount txt.data = some n → get_total_pages (.ok txt) = n) := by
  refine ⟨fun e => rfl, ?_, ?_⟩
  · intro txt h; simp [get_total_pages, h]
  · intro txt n h; simp [get_total_pages, h]

theorem get_total_pages_spec_witness :
    get_total_pages (.error ()) = 1 ∧
    get_total_pages (.ok "no pagination") = 1 ∧
    get_total_pages (.ok "Page 1 of 42") = 42 :=
  ⟨get_total_pages_spec.1 (), get_total_pages_spec.2.1 "no pagination" (by decide),
   get_total_pages_spec.2.2 "Page 1 of 42" 42 (by decide)⟩

/-- C8: appending a search tag twice with the same (url, tag) yields the
same collection state as appending it once, the second call reporting
modified count 0; and when the first document matching the url already
carries the tag, the call is a no-op on the state that returns modified
count 0. -/
theorem update_tag_second_noop (s : List Job) (u q : String) :
    update_job_search_tag (update_job_search_tag s u q).1 u q =
      ((update_job_search_tag s u q).1, 0) ∧
    ∀ j, s.find? (fun j2 => j2.url = u) = some j → q ∈ j.searches →
      update_job_search_tag s u q = (s, 0) := by
  constructor
  · induction s with
    | nil => rfl
    | cons a rest ih =>
      by_cases hu : a.url = u
      · by_cases hq : q ∈ a.searches
        · simp [update_job_search_tag, hu, hq]
        · simp [update_job_search_tag, hu, hq]
      · simp [update_job_search_tag, hu, ih]
  · induction s with
    | nil => intro j h; simp at h
    | cons a rest ih =>
      intro j hfind hq
      by_cases ha : a.url = u
      · rw [List.find?_cons_of_pos _ (by simp [ha])] at hfind
        have haj : a = j := by injection hfind
        subst haj
        simp [update_job_search_tag, ha, hq]
      · rw [List.find?_cons_of_neg _ (by simp [ha])] at hfind
        have hrest := ih j hfind hq
        simp [update_job_search_tag, ha, hrest]

theorem update_tag_second_noop_witness :
    update_job_search_tag [⟨"u", ["q"], []⟩] "u" "q" = ([⟨"u", ["q"], []⟩], 0) ∧
    update_job_search_tag (update_job_search_tag [⟨"u", ["x"], []⟩] "u" "q").1 "u" "q" =
      ((update_job_search_tag [⟨"u", ["x"], []⟩] "u" "q").1, 0) :=
  ⟨(update_tag_second_noop [⟨"u", ["q"], []⟩] "u" "q").2 ⟨"u", ["q"], []⟩
      (by decide) (by decide),
   (update_tag_second_noop [⟨"u", ["x"], []⟩] "u" "q").1⟩

theorem update_tag_preserves_dedup (s : List Job) (u q : String) :
    SearchesDedup s → SearchesDedup (update_job_search_tag s u q).1 := by
  induction s with
  | nil => intro _ j hj; simp [update_job_search_tag] at hj
  | cons a rest ih =>
    intro hs
    have ha : a.searches.Nodup := hs a (by simp)
    have hrest : SearchesDedup rest := fun j hj => hs j (by simp [hj])
    by_cases hu : a.url = u
    · by_cases hq : q ∈ a.searches
      · simpa [update_job_search_tag, hu, hq] using hs
      · intro j hj
        simp [update_job_search_tag, hu, hq] at hj
        rcases hj with hj | hj
        · subst hj
          simp [List.nodup_append, ha, hq]
        · exact hrest j hj
    · intro j hj
      simp [update_job_search_tag, hu] at hj
      rcases hj with hj | hj
      · subst hj; exact ha
      · exact ih hrest j hj

/-- C9: both Store-mutating operations of the pipeline preserve the Record
invariant that each query token appears at most once in a document's
searches list: the tag-append on an existing record and the insert of a
newly fetched record (which also falls back to the tag-append on a
duplicate key). -/
theorem mutations_preserve_search_dedup (s : List Job) (u q : String) (jd : Job)
    (hs : SearchesDedup s) :
    SearchesDedup (update_job_search_tag s u q).1 ∧
    SearchesDedup (insert_new_job s jd q).1 := by
  refine ⟨update_tag_preserves_dedup s u q hs, ?_⟩
  unfold insert_new_job
  by_cases h : s.any (fun j => j.url = jd.url)
  · simpa [h] using update_tag_preserves_dedup s jd.url q hs
  · simp only [h, Bool.false_eq_true, if_false]
    intro j hj
    simp at hj
    rcases hj with hj | hj
    · exact hs j hj
    · subst hj; simp

theorem mutations_preserve_search_dedup_witness :
    SearchesDedup [(⟨"u", ["a"], []⟩ : Job)] ∧
    SearchesDedup (update_job_search_tag [⟨"u", ["a"], []⟩] "u" "b").1 :=
  ⟨by decide,
   (mutations_preserve_search_dedup [⟨"u", ["a"], []⟩] "u" "b" ⟨"w", [], []⟩ (by decide)).1⟩

theorem setAdd_mem {acc : List String} {x y : String} :
    y ∈ setAdd acc x ↔ y ∈ acc ∨ y = x := by
  unfold setAdd
  by_cases hx : x ∈ acc
  · simp only [if_pos hx]
    constructor
    · exact Or.inl
    · rintro (h | rfl)
      exacts [h, hx]
  · simp [if_neg hx]

theorem setAdd_nodup {acc : List String} {x : String} (h : acc.Nodup) :
    (setAdd acc x).Nodup := by
  unfold setAdd
  by_cases hx : x ∈ acc <;> simp [hx, List.nodup_append, h]

theorem addHref_nodup {acc : List String} (h : acc.Nodup) (o : Option String) :
    (addHref acc o).Nodup := by
  cases o with
  | none => exact h
  | some s =>
    simp only [addHref]
    split_ifs <;> first | exact h | exact setAdd_nodup h

theorem addHref_mem_mono {acc : List String} {y : String} (h : y ∈ acc) (o : Option String) :
    y ∈ addHref acc o := by
  cases o with
  | none => exact h
  | some s =>
    simp only [addHref]
    split_ifs <;> first | exact h | exact setAdd_mem.mpr (Or.inl h)

theorem foldl_addHref_nodup (links : List (Option String)) :
    ∀ acc : List String, acc.Nodup → (links.foldl addHref acc).Nodup := by
  induction links with
  | nil => intro acc h; exact h
  | cons o rest ih => intro acc h; exact ih _ (addHref_nodup h o)

theorem foldl_addHref_mem_mono (links : List (Option String)) :
    ∀ (acc : List String) (y : String), y ∈ acc → y ∈ links.foldl addHref acc := by
  induction links with
  | nil => intro acc y h; exact h
  | cons o rest ih => intro acc y h; exact ih _ y (addHref_mem_mono h o)

theorem foldl_addHref_mem_add (links : List (Option String)) (x : String)
    (hne : x ≠ "") (hsub : hasSubstr ("/job-detail/".data) x.data = true) :
    some x ∈ links → ∀ acc : List String, x ∈ links.foldl addHref acc := by
  induction links with
  | nil => intro hx; simp at hx
  | cons o rest ih =>
    intro hx acc
    rcases List.mem_cons.mp hx with h | h
    · subst h
      simp only [List.foldl_cons]
      apply foldl_addHref_mem_mono
      show x ∈ addHref acc (some x)
      simp only [addHref]
      rw [if_neg hne, if_pos hsub]
      exact setAdd_mem.mpr (Or.inr rfl)
    · exact ih h (addHref acc o)

theorem pageLoop_nodup (pages : Nat → Except Unit (List (Option String))) (delay : Nat)
    (idxs : List Nat) :
    ∀ acc : List String, acc.Nodup → (pageLoop pages delay idxs acc).1.Nodup := by
  induction idxs with
  | nil => intro acc h; exact h
  | cons i rest ih =>
    intro acc h
    cases hp : pages i <;> simp [pageLoop, hp]
    · exact ih _ h
    · exact ih _ (foldl_addHref_nodup _ _ h)

theorem pageLoop_mem_mono (pages : Nat → Except Unit (List (Option String))) (delay : Nat)
    (idxs : List Nat) :
    ∀ (acc : List String) (y : String), y ∈ acc → y ∈ (pageLoop pages delay idxs acc).1 := by
  induction idxs with
  | nil => intro acc y h; exact h
  | cons i rest ih =>
    intro acc y h
    cases hp : pages i <;> simp [pageLoop, hp]
    · exact ih _ y h
    · exact ih _ y (foldl_addHref_mem_mono _ _ y h)

theorem pageLoop_mem_page (pages : Nat → Except Unit (List (Option String))) (delay : Nat)
    (i : Nat) (li : List (Option String)) (x : String)
    (hpi : pages i = .ok li) (hxi : some x ∈ li) (hne : x ≠ "")
    (hsub : hasSubstr ("/job-detail/".data) x.data = true) :
    ∀ idxs : List Nat, ∀ acc : List String, i ∈ idxs →
      x ∈ (pageLoop pages delay idxs acc).1 := by
  intro idxs
  induction idxs with
  | nil => intro acc h; simp at h
  | cons i0 rest ih =>
    intro acc hmem
    rcases List.mem_cons.mp hmem with h | h
    · subst h
      simp [pageLoop, hpi]
      exact pageLoop_mem_mono pages delay rest _ x (foldl_addHref_mem_add li x hne hsub hxi acc)
    · cases hp : pages i0 <;> simp [pageLoop, hp] <;> exact ih _ h

/-- C7: when the same identifier is extracted (as a valid job-detail link)
on more than one result page, the collection the link collector returns
contains that identifier exactly once - the running set deduplicates
across pages. -/
theorem collector_contains_once (pages : Nat → Except Unit (List (Option String)))
    (total_pages delay : Nat) (x : String) (i j : Nat) (li lj : List (Option String))
    (hij : i ≠ j)
    (hi : i ∈ List.range' 1 total_pages) (hj : j ∈ List.range' 1 total_pages)
    (hpi : pages i = .ok li) (hpj : pages j = .ok lj)
    (hxi : some x ∈ li) (hxj : some x ∈ lj)
    (hne : x ≠ "") (hsub : hasSubstr ("/job-detail/".data) x.data = true) :
    (get_unique_job_links pages total_pages delay).1.count x = 1 := by
  have hmem : x ∈ (get_unique_job_links pages total_pages delay).1 :=
    pageLoop_mem_page pages delay i li x hpi hxi hne hsub (List.range' 1 total_pages) [] hi
  have hnd : (get_unique_job_links pages total_pages delay).1.Nodup :=
    pageLoop_nodup pages delay (List.range' 1 total_pages) [] List.nodup_nil
  exact List.count_eq_one_of_mem hnd hmem

theorem collector_contains_once_witness :
    twoHitPages 2 = .ok [some "/job-detail/x"] ∧
    twoHitPages 5 = .ok [some "/job-detail/x", none] ∧
    (get_unique_job_links twoHitPages 5 1).1.count "/job-detail/x" = 1 :=
  ⟨rfl, rfl,
   collector_contains_once twoHitPages 5 1 "/job-detail/x" 2 5
     [some "/job-detail/x"] [some "/job-detail/x", none]
     (by decide) (by decide) (by decide) rfl rfl
     (by decide) (by decide) (by decide) (by decide)⟩

end DiceSearchScraper

namespace FileUtilities

theorem digitVal_digitChar : ∀ d : Nat, d < 10 → digitVal (Nat.digitChar d) = d := by decide

theorem map_digitVal_map_digitChar (l : List Nat) (h : ∀ d ∈ l, d < 10) :
    (l.map Nat.digitChar).map digitVal = l := by
  induction l with
  | nil => rfl
  | cons d t ih =>
    simp only [List.map_cons]
    rw [digitVal_digitChar d (h d (by simp)), ih (fun x hx => h x (by simp [hx]))]

theorem toDigitsCore_eq_decChars (n : Nat) :
    ∀ (fuel : Nat) (ds : List Char), n < fuel →
      Nat.toDigitsCore 10 fuel n ds = decChars n ++ ds := by
  induction n using Nat.strong_induction_on with
  | _ n IH =>
    intro fuel ds hf
    match fuel with
    | 0 => omega
    | f + 1 =>
      by_cases h0 : n / 10 = 0
      · by_cases hn : n = 0
        · subst hn
          have hchar : Nat.digitChar (0 % 10) = '0' := rfl
          simp [Nat.toDigitsCore, decChars, hchar]
        · have hdig : Nat.digits 10 n = [n % 10] := by
            rw [Nat.digits_eq_cons_digits_div (by norm_num) hn, h0]
            simp
          simp [Nat.toDigitsCore, h0, decChars, hn, hdig]
      · have h10 : 10 ≤ n := by
          by_contra hc
          push_neg at hc
          exact h0 ((Nat.div_eq_zero_iff (by norm_num)).mpr hc)
        have hlt2 : n / 10 < n := Nat.div_lt_self (by omega) (by norm_num)
        have hfuel2 : n / 10 < f := by
          have : n / 10 < n := hlt2
          omega
        have hIH := IH (n / 10) hlt2 f (Nat.digitChar (n % 10) :: ds) hfuel2
        have hstep : Nat.toDigitsCore 10 (f + 1) n ds =
            Nat.toDigitsCore 10 f (n / 10) (Nat.digitChar (n % 10) :: ds) := by
          simp [Nat.toDigitsCore, h0]
        rw [hstep, hIH]
        have hn : n ≠ 0 := by omega
        have hn' : n / 10 ≠ 0 := h0
        simp only [decChars, hn, hn', if_neg, ite_false]
        rw [Nat.digits_eq_cons_digits_div (by norm_num) hn]
        simp [List.map_cons, List.reverse_cons, List.append_assoc]

theorem repr_eq_decChars (n : Nat) : Nat.repr n = (decChars n).asString := by
  unfold Nat.repr Nat.toDigits
  rw [toDigitsCore_eq_decChars n (n + 1) [] (Nat.lt_succ_self n)]
  rw [List.append_nil]

theorem decChars_injective : Function.Injective decChars := by
  have key : ∀ m : Nat, m ≠ 0 → decChars m = ['0'] → False := by
    intro m hm h
    have hrev : ((Nat.digits 10 m).map Nat.digitChar).reverse = ['0'] := by
      simpa [decChars, hm] using h
    have hmap : (Nat.digits 10 m).map Nat.digitChar = ['0'] := by
      have := congrArg List.reverse hrev
      simpa using this
    have hdig : Nat.digits 10 m = [0] := by
      have hlt : ∀ d ∈ Nat.digits 10 m, d < 10 :=
        fun d hd => Nat.digits_lt_base (by norm_num) hd
      have := map_digitVal_map_digitChar (Nat.digits 10 m) hlt
      rw [hmap] at this
      simpa [digitVal] using this.symm
    have := Nat.ofDigits_digits 10 m
    rw [hdig] at this
    simp [Nat.ofDigits] at this
    omega
  intro a b h
  by_cases ha : a = 0 <;> by_cases hb : b = 0
  · omega
  · exfalso
    apply key b hb
    rw [← h, ha]
    rfl
  · exfalso
    apply key a ha
    rw [h, hb]
    rfl
  · have hmap : (Nat.digits 10 a).map Nat.digitChar = (Nat.digits 10 b).map Nat.digitChar := by
      have hrev : ((Nat.digits 10 a).map Nat.digitChar).reverse
          = ((Nat.digits 10 b).map Nat.digitChar).reverse := by
        simpa [decChars, ha, hb] using h
      have := congrArg List.reverse hrev
      simpa using this
    have hdig : Nat.digits 10 a = Nat.digits 10 b := by
      have hla : ∀ d ∈ Nat.digits 10 a, d < 10 :=
        fun d hd => Nat.digits_lt_base (by norm_num) hd
      have hlb : ∀ d ∈ Nat.digits 10 b, d < 10 :=
        fun d hd => Nat.digits_lt_base (by norm_num) hd
      rw [← map_digitVal_map_digitChar (Nat.digits 10 a) hla,
        ← map_digitVal_map_digitChar (Nat.digits 10 b) hlb, hmap]
    exact Nat.digits.injective 10 hdig

theorem repr_injective : Function.Injective Nat.repr := by
  intro a b h
  apply decChars_injective
  rw [repr_eq_decChars, repr_eq_decChars] at h
  exact congrArg String.data h

theorem candidate_injective (name ext : String) : Function.Injective (candidate name ext) := by
  intro a b h
  apply repr_injective
  apply String.ext
  have h2 := congrArg String.data h
  simp only [candidate, String.data_append] at h2
  exact List.append_cancel_left (List.append_cancel_right h2)

theorem exists_free_candidate (fs : List String) (name ext : String) (counter : Nat) :
    ∃ j, j < fs.length + 1 ∧ candidate name ext (counter + j) ∉ fs := by
  by_contra hall
  push_neg at hall
  have hinj : Function.Injective (fun j : Nat => candidate name ext (counter + j)) := by
    intro a b hab
    have := candidate_injective name ext hab
    omega
  have hnd : ((List.range (fs.length + 1)).map
      (fun j => candidate name ext (counter + j))).Nodup :=
    List.Nodup.map hinj (List.nodup_range _)
  have hcard1 : ((List.range (fs.length + 1)).map
      (fun j => candidate name ext (counter + j))).toFinset.card = fs.length + 1 := by
    rw [List.toFinset_card_of_nodup hnd, List.length_map, List.length_range]
  have hsub2 : ((List.range (fs.length + 1)).map
      (fun j => candidate name ext (counter + j))).toFinset ⊆ fs.toFinset := by
    intro x hx
    rw [List.mem_toFinset, List.mem_map] at hx
    obtain ⟨j, hj, rfl⟩ := hx
    rw [List.mem_toFinset]
    exact hall j (by simpa using hj)
  have hle := Finset.card_le_card hsub2
  have hle2 := List.toFinset_card_le fs
  omega

theorem findFree_spec (fs : List String) (name ext : String) :
    ∀ fuel counter : Nat,
      (∃ j, j < fuel ∧ candidate name ext (counter + j) ∉ fs) →
      ∃ j, j < fuel ∧ findFree fs name ext fuel counter = candidate name ext (counter + j) ∧
        candidate name ext (counter + j) ∉ fs ∧
        ∀ k, k < j → candidate name ext (counter + k) ∈ fs := by
  intro fuel
  induction fuel with
  | zero =>
    intro counter h
    obtain ⟨j, hj, _⟩ := h
    omega
  | succ f ih =>
    intro counter h
    by_cases hc : candidate name ext counter ∈ fs
    · have hex : ∃ j, j < f ∧ candidate name ext (counter + 1 + j) ∉ fs := by
        obtain ⟨j, hj, hfree⟩ := h
        match j with
        | 0 =>
          exfalso
          apply hfree
          simpa using hc
        | j' + 1 =>
          refine ⟨j', by omega, ?_⟩
          rw [show counter + 1 + j' = counter + (j' + 1) from by omega]
          exact hfree
      obtain ⟨j, hj, heq, hfree, hmin⟩ := ih (counter + 1) hex
      refine ⟨j + 1, by omega, ?_, ?_, ?_⟩
      · rw [show findFree fs name ext (f + 1) counter = findFree fs name ext f (counter + 1)
            from by simp [findFree, hc]]
        rw [heq]
        congr 1
        omega
      · rw [show counter + (j + 1) = counter + 1 + j from by omega]
        exact hfree
      · intro k hk
        match k with
        | 0 => simpa using hc
        | k' + 1 =>
          have := hmin k' (by omega)
          rw [show counter + (k' + 1) = counter + 1 + k' from by omega]
          exact this
    · refine ⟨0, by omega, ?_, ?_, ?_⟩
      · simp [findFree, hc]
      · simpa using hc
      · intro k hk
        omega

/-- C10: get_unique_filename returns the base filename itself when no file
of that name exists; otherwise it returns name_n.ext (name and ext from
splitext of the base) for the smallest numeric suffix n ≥ 1 that names no
existing file; in all cases the returned filename does not name an
existing file. -/
theorem get_unique_filename_spec (fs : List String) (base : String) :
    (base ∉ fs → get_unique_filename fs base = base) ∧
    (base ∈ fs → ∃ n, 1 ≤ n ∧
      get_unique_filename fs base = candidate (splitext base).1 (splitext base).2 n ∧
      candidate (splitext base).1 (splitext base).2 n ∉ fs ∧
      ∀ m, 1 ≤ m → m < n → candidate (splitext base).1 (splitext base).2 m ∈ fs) ∧
    get_unique_filename fs base ∉ fs := by
  have hmain : base ∈ fs → ∃ n, 1 ≤ n ∧
      get_unique_filename fs base = candidate (splitext base).1 (splitext base).2 n ∧
      candidate (splitext base).1 (splitext base).2 n ∉ fs ∧
      ∀ m, 1 ≤ m → m < n → candidate (splitext base).1 (splitext base).2 m ∈ fs := by
    intro hb
    obtain ⟨j, hj, heq, hfree, hmin⟩ :=
      findFree_spec fs (splitext base).1 (splitext base).2 (fs.length + 1) 1
        (exists_free_candidate fs (splitext base).1 (splitext base).2 1)
    refine ⟨1 + j, by omega, ?_, hfree, ?_⟩
    · rw [get_unique_filename, if_pos hb]
      exact heq
    · intro m h1 hm
      have hk := hmin (m - 1) (by omega)
      rw [show 1 + (m - 1) = m from by omega] at hk
      exact hk
  refine ⟨?_, hmain, ?_⟩
  · intro hb
    rw [get_unique_filename, if_neg hb]
  · by_cases hb : base ∈ fs
    · obtain ⟨n, _, heq, hfree, _⟩ := hmain hb
      rw [heq]
      exact hfree
    · rw [get_unique_filename, if_neg hb]
      exact hb

theorem get_unique_filename_spec_witness :
    get_unique_filename ["report.csv"] "other.csv" = "other.csv" ∧
    get_unique_filename ["report.csv"] "report.csv" ∉ (["report.csv"] : List String) ∧
    get_unique_filename ["report.csv"] "report.csv" = "report_1.csv" :=
  ⟨(get_unique_filename_spec ["report.csv"] "other.csv").1 (by decide),
   (get_unique_filename_spec ["report.csv"] "report.csv").2.2,
   by decide⟩

end FileUtilities

end AIJobFinder
